import Mathlib

/-! Shallow embedding of the pagination engine of
`server/py/framework/utils/pagination.py`: the `Paginator` class
(`paginate_request`, `paginate_permission_filtered_request`,
`_create_or_update_pagination_cache_record`, `_calculate_offset_and_limit`),
the `PaginatedMethods` registry with its signature-derived pydantic schemas,
and the pagination cache those drive.  JSON-representable parameter values
are modelled by `Val`, keyword-argument dictionaries by association lists,
exceptions by an `Except` error type, and the registered SQL fetch
functions by their external contract (spec section 6): functions of the
optional `offset` and `limit` arguments. -/

/-- A JSON-style value of a method keyword argument.  The pydantic schema
fields and their orjson (de)serialization act structurally on these, so
serialization of an instantiated schema is modelled as the identity on the
underlying association list. -/
inductive Val where
  | vnull
  | vbool (b : Bool)
  | vint (n : Int)
  | vstr (s : String)
  deriving DecidableEq, Repr

/-- One field of the pydantic model generated by
`_generate_pydantic_schema_from_method_signature` from a registered
method's signature: the parameter name together with its default value
(`none` models the `...` placeholder of a required parameter). -/
structure SchemaField where
  name : String
  default : Option Val
  deriving DecidableEq, Repr

/-- An entry of `PaginatedMethods._method_map`: the method's name, the
schema of its parameters, and the bounded fetch callable, abstracted to a
function of the `offset` and `limit` arguments it receives. -/
structure MethodEntry where
  name : String
  fields : List SchemaField
  fetch : Option Int → Option Int → List Val

/-- The `PaginatedMethods` registry. -/
abbrev Registry := List MethodEntry

/-- Name lookup in the registry (`PaginatedMethods.get_method` /
`method_is_supported`, both reading `_method_map`). -/
def lookupMethod : Registry → String → Option MethodEntry
  | [], _ => none
  | e :: rest, n => if e.name = n then some e else lookupMethod rest n

/-- Modelled from the spec: `mlrun.common.schemas.AuthInfo` is not part of
the sources; spec section 6 describes the auth context as "an object
exposing a nullable `user_id`", used only for token-ownership comparison. -/
structure AuthInfo where
  user_id : Option String
  deriving DecidableEq, Repr

/-- `auth_info.user_id if auth_info else None` (line 270 of the source). -/
def authUser : Option AuthInfo → Option String
  | none => none
  | some a => a.user_id

/-- Python truthiness of the record's `user` value in `if user and ...`
(line 252): `None` and the empty string are falsy. -/
def truthyUser : Option String → Bool
  | none => false
  | some s => decide (s ≠ "")

/-- The caller-identity mismatch test
`not auth_info or auth_info.user_id != user` (line 252). -/
def authMismatch (auth : Option AuthInfo) (user : Option String) : Bool :=
  match auth with
  | none => true
  | some a => decide (a.user_id ≠ user)

/-- A pagination cache record: owning user (nullable), bound method name,
serialized keyword arguments, current page and page size. -/
structure CacheRecord where
  user : Option String
  function : String
  kwargs : List (String × Val)
  current_page : Option Int
  page_size : Int
  deriving DecidableEq, Repr

/-- The pagination cache: a counter used to mint fresh tokens (opaque
strings in the source, modelled as naturals) and the token-keyed records. -/
structure PagCache where
  nextId : Nat
  records : List (Nat × CacheRecord)
  deriving DecidableEq, Repr

/-- Record lookup by token. -/
def lookupTok : List (Nat × CacheRecord) → Nat → Option CacheRecord
  | [], _ => none
  | (t0, r) :: rest, t => if t0 = t then some r else lookupTok rest t

/-- `PaginationCache.get_pagination_cache_record` (record by token). -/
def cacheFind (c : PagCache) (t : Nat) : Option CacheRecord :=
  lookupTok c.records t

/-- Token of the first record whose identifying content (owning user,
method name, serialized parameters) matches. -/
def findByContent : List (Nat × CacheRecord) → Option String → String → List (String × Val) → Option Nat
  | [], _, _, _ => none
  | (t0, r) :: rest, u, fn, kw =>
    if r.user = u ∧ r.function = fn ∧ r.kwargs = kw then some t0
    else findByContent rest u fn kw

/-- In-place replacement of the (first) record held under a token. -/
def updateRecords : List (Nat × CacheRecord) → Nat → CacheRecord → List (Nat × CacheRecord)
  | [], _, _ => []
  | (t0, r0) :: rest, t, r =>
    if t0 = t then (t0, r) :: rest else (t0, r0) :: updateRecords rest t r

/-- Modelled from the spec:
`framework.utils.pagination_cache.PaginationCache.store_pagination_cache_record`
is not part of the sources.  Spec sections 4.2 and 4.3 (step 6) describe it
as an upsert of the record identified by its content — "create if none
existed, else update in place; capture the resulting token" — with tokens
that are "unguessable-stable", i.e. stable for the same (owning user,
method, serialized parameters) triple; the record keeps only
`current_page`, `page_size` and `user` mutable.  Returns the token and the
updated cache. -/
def storeRecord (c : PagCache) (user : Option String) (fn : String)
    (page : Option Int) (ps : Int) (kw : List (String × Val)) : Nat × PagCache :=
  match findByContent c.records user fn kw with
  | some t => (t, ⟨c.nextId, updateRecords c.records t ⟨user, fn, kw, page, ps⟩⟩)
  | none => (c.nextId, ⟨c.nextId + 1, c.records ++ [(c.nextId, ⟨user, fn, kw, page, ps⟩)]⟩)

/-- `mlrun.common.schemas.pagination.PaginationInfo`: the transient result
value returned alongside a page (all fields nullable, as witnessed by the
default-constructed `PaginationInfo()` in the permission-filtered loop). -/
structure PaginationInfo where
  page : Option Int
  page_size : Option Int
  page_token : Option Nat
  deriving DecidableEq, Repr

/-- The `mlconf.httpdb.pagination` configuration surface. -/
structure PagConfig where
  default_page_size : Int
  page_limit : Int
  page_size_limit : Int
  deriving DecidableEq, Repr

/-- The exceptions the pagination code can raise. -/
inductive PagErr where
  /-- `NotImplementedError` for an unregistered method (line 152). -/
  | notImplemented
  /-- `MLRunInvalidArgumentError` (lines 166, 174, 287). -/
  | invalidArgument
  /-- `MLRunPaginationEndOfResultsError` for an unknown token (line 243). -/
  | endOfResults
  /-- `MLRunAccessDeniedError` (line 253). -/
  | accessDenied
  /-- `KeyError` from `get_method` on an unregistered stored name (line 246). -/
  | keyError
  /-- `TypeError` from `record.current_page + 1` on a NULL stored page (line 248). -/
  | typeError
  /-- pydantic `ValidationError` from instantiating the schema (line 259). -/
  | validationError
  /-- `ValueError` from setting a non-existent schema attribute (lines 260-261). -/
  | valueError
  deriving DecidableEq, Repr

/-- First-match lookup in a keyword-argument dictionary. -/
def lookupKw : List (String × Val) → String → Option Val
  | [], _ => none
  | (k, v) :: rest, key => if k = key then some v else lookupKw rest key

/-- Instantiation of the generated pydantic model on a keyword dictionary
(`method_schema(**method_kwargs)`, line 259): every schema field takes the
supplied value, or its default, or raises a validation error if required
and absent; keys outside the schema are ignored (pydantic v1 default
`Extra.ignore`). -/
def applySchema : List SchemaField → List (String × Val) → Except PagErr (List (String × Val))
  | [], _ => .ok []
  | f :: rest, kwargs =>
    match lookupKw kwargs f.name, f.default with
    | some v, _ => (applySchema rest kwargs).map (fun r => (f.name, v) :: r)
    | none, some d => (applySchema rest kwargs).map (fun r => (f.name, d) :: r)
    | none, none => .error .validationError

/-- `kwargs_schema.offset = None` / `kwargs_schema.limit = None` (lines
260-261): overwrite the value of an existing field; setting an attribute
that is not a field of the pydantic model raises. -/
def setFieldNull : List (String × Val) → String → Option (List (String × Val))
  | [], _ => none
  | (k, v) :: rest, key =>
    if k = key then some ((k, Val.vnull) :: rest)
    else (setFieldNull rest key).map (fun r => (k, v) :: r)

/-- The `exclude_none=True` behaviour of `kwargs_schema.json` and
`kwargs_schema.dict` (lines 274, 276): entries whose value is null are
dropped. -/
def excludeNone (l : List (String × Val)) : List (String × Val) :=
  l.filter (fun kv => decide (kv.2 ≠ Val.vnull))

/-- The keyword serialization performed before storing a cache record
(lines 258-261 and 274): instantiate the method's schema, strip `offset`
and `limit` by nulling them, and serialize excluding nulls.  orjson
round-trips our structural JSON values, so
`orjson.loads` of the stored string is the identity on the result. -/
def serializeKwargs (fields : List SchemaField) (kwargs : List (String × Val)) :
    Except PagErr (List (String × Val)) :=
  match applySchema fields kwargs with
  | .error e => .error e
  | .ok inst =>
    match setFieldNull inst "offset" with
    | none => .error .valueError
    | some i1 =>
      match setFieldNull i1 "limit" with
      | none => .error .valueError
      | some i2 => .ok (excludeNone i2)

/-- The literal reading of "the originals minus `offset`/`limit`": the
caller's keyword dictionary with the `offset` and `limit` keys removed. -/
def eraseOffsetLimit (l : List (String × Val)) : List (String × Val) :=
  l.filter (fun kv => decide (kv.1 ≠ "offset" ∧ kv.1 ≠ "limit"))

/-- The token-reuse page resolution
`page = page or pagination_cache_record.current_page + 1` (line 248): a
falsy caller page (absent, or 0) falls back to the stored page plus one;
the `none` output models the `TypeError` raised when the stored page is
itself NULL and the fallback is evaluated. -/
def resolvePage (page : Option Int) (stored : Option Int) : Option Int :=
  match page with
  | some p => if p ≠ 0 then some p else stored.map (· + 1)
  | none => stored.map (· + 1)

/-- `Paginator._calculate_offset_and_limit` (lines 278-294): for a given
page, resolve a falsy page size to the configured default, require both to
be at least 1, and return `offset = (page-1)*page_size`,
`limit = page_size+1`; without a page, no offset/limit at all. -/
def calculateOffsetAndLimit (cfg : PagConfig) (page : Option Int) (pageSize : Option Int) :
    Except PagErr (Option Int × Option Int) :=
  match page with
  | none => .ok (none, none)
  | some p =>
    let ps : Int := match pageSize with
      | none => cfg.default_page_size
      | some s => if s = 0 then cfg.default_page_size else s
    if p < 1 ∨ ps < 1 then .error .invalidArgument
    else .ok (some ((p - 1) * ps), some (ps + 1))

/-- The `page_size = page_size or mlconf.httpdb.pagination.default_page_size`
resolution of line 178 (`None` and 0 are falsy). -/
def orDefaultInt (d : Int) : Option Int → Int
  | none => d
  | some s => if s = 0 then d else s

/-- `page is not None and page > mlconf.httpdb.pagination.page_limit` (line 165). -/
def pageOverLimit (cfg : PagConfig) : Option Int → Bool
  | none => false
  | some p => decide (cfg.page_limit < p)

/-- `page_size is not None and page_size > ...page_size_limit` (lines 170-173). -/
def pageSizeOverLimit (cfg : PagConfig) : Option Int → Bool
  | none => false
  | some s => decide (cfg.page_size_limit < s)

/-- The upsert tail shared by both branches of
`_create_or_update_pagination_cache_record` (lines 257-276): serialize the
keyword arguments through the resolved method's schema and store the cache
record, returning the token and everything the caller resumes with. -/
def serializeAndStore (c : PagCache) (entry : MethodEntry) (auth : Option AuthInfo)
    (page : Option Int) (ps : Int) (kwargs : List (String × Val)) :
    Except PagErr (Nat × Option Int × Int × MethodEntry × List (String × Val) × PagCache) :=
  match serializeKwargs entry.fields kwargs with
  | .error e => .error e
  | .ok serialized =>
    let tc := storeRecord c (authUser auth) entry.name page ps serialized
    .ok (tc.1, page, ps, entry, serialized, tc.2)

/-- The token branch of `_create_or_update_pagination_cache_record` (lines
246-255), after the record has been resolved: rebind the method and its
stored kwargs, resolve the page from the caller's page or the stored one,
take the page size from the record, enforce token ownership, then upsert. -/
def resumeFromRecord (reg : Registry) (c : PagCache) (auth : Option AuthInfo)
    (page : Option Int) (rec : CacheRecord) :
    Except PagErr (Nat × Option Int × Int × MethodEntry × List (String × Val) × PagCache) :=
  match lookupMethod reg rec.function with
  | none => .error .keyError
  | some entry1 =>
    match resolvePage page rec.current_page with
    | none => .error .typeError
    | some p1 =>
      if truthyUser rec.user && authMismatch auth rec.user then .error .accessDenied
      else serializeAndStore c entry1 auth (some p1) rec.page_size rec.kwargs

/-- `Paginator._create_or_update_pagination_cache_record` (lines 225-276).
With a token: resolve the record (unknown token is end-of-results) and
resume from it.  Without a token: upsert directly with the caller-supplied
data. -/
def createOrUpdate (reg : Registry) (c : PagCache) (entry : MethodEntry)
    (auth : Option AuthInfo) (token : Option Nat) (page : Option Int) (ps0 : Int)
    (kwargs : List (String × Val)) :
    Except PagErr (Nat × Option Int × Int × MethodEntry × List (String × Val) × PagCache) :=
  match token with
  | none => serializeAndStore c entry auth page ps0 kwargs
  | some t =>
    match cacheFind c t with
    | none => .error .endOfResults
    | some rec => resumeFromRecord reg c auth page rec

/-- Python list truncation `items[:page_size]` (line 222), including the
negative-bound convention. -/
def pySlice (l : List Val) (k : Int) : List Val :=
  if 0 ≤ k then l.take k.toNat else l.take (l.length - k.natAbs)

/-- The tail of `paginate_request` after the cache upsert (lines 202-223):
compute offset/limit from the resolved page and page size, perform the one
fetch, and apply the end-of-results decision — zero items means
`([], None)`, fewer than `page_size + 1` items means last page (no token
in the returned info), and the items are truncated to the page size. -/
def finishRequest (cfg : PagConfig) (t : Nat) (page1 : Option Int) (ps1 : Int)
    (entry1 : MethodEntry) (c1 : PagCache) :
    Except PagErr (List Val × Option PaginationInfo × PagCache) :=
  match calculateOffsetAndLimit cfg page1 (some ps1) with
  | .error e => .error e
  | .ok (off, lim) =>
    let items := entry1.fetch off lim
    if items.length = 0 then .ok ([], none, c1)
    else
      let ptok : Option Nat := if (items.length : Int) < ps1 + 1 then none else some t
      .ok (pySlice items ps1, some ⟨page1, some ps1, ptok⟩, c1)

/-- `Paginator.paginate_request` (lines 139-223): registry check,
no-pagination shortcut, page/page-size bound checks, default page size,
cache upsert, offset/limit computation, one fetch, and the end-of-results
decision.  Returns the items, the optional `PaginationInfo`, and the
updated cache. -/
def paginateRequest (reg : Registry) (cfg : PagConfig) (c : PagCache) (mname : String)
    (auth : Option AuthInfo) (token : Option Nat) (page pageSize : Option Int)
    (kwargs : List (String × Val)) :
    Except PagErr (List Val × Option PaginationInfo × PagCache) :=
  match lookupMethod reg mname with
  | none => .error .notImplemented
  | some entry =>
    if pageSize.isNone && token.isNone then
      .ok (entry.fetch none none, none, c)
    else if pageOverLimit cfg page then .error .invalidArgument
    else if pageSizeOverLimit cfg pageSize then .error .invalidArgument
    else
      match createOrUpdate reg c entry auth token page (orDefaultInt cfg.default_page_size pageSize) kwargs with
      | .error e => .error e
      | .ok (t, page1, ps1, entry1, _, c1) => finishRequest cfg t page1 ps1 entry1 c1

/-- The `while not page_size or len(result) < page_size` condition of the
permission-filtered loop (line 114): enter on a falsy page size or an
accumulator shorter than it. -/
def loopCond (ps : Option Int) (acc : List Val) : Bool :=
  match ps with
  | none => true
  | some s => s == 0 || decide ((acc.length : Int) < s)

/-- The loop body of `Paginator.paginate_permission_filtered_request`
(lines 110-137), with explicit fuel standing for the number of `while`
iterations the run is allowed (`none` = fuel exhausted, a model artifact;
the real loop is unbounded).  Each pass calls `paginate_request` with the
original token, filters the batch with the permission predicate, extends
the accumulator, breaks when no `PaginationInfo` came back, and otherwise
advances to `returned page + 1` with the returned page size. -/
def permLoop (reg : Registry) (cfg : PagConfig) (mname : String) (keep : Val → Bool)
    (auth : Option AuthInfo) (token : Option Nat) (kwargs : List (String × Val)) :
    Nat → PagCache → Option Int → Option Int → List Val → PaginationInfo →
    Option (Except PagErr (List Val × PaginationInfo × PagCache))
  | 0, _, _, _, _, _ => none
  | Nat.succ fuel, c, curPage, ps, acc, last =>
    if loopCond ps acc then
      match paginateRequest reg cfg c mname auth token curPage ps kwargs with
      | .error e => some (.error e)
      | .ok (newItems, infoOpt, c1) =>
        let acc1 := acc ++ newItems.filter keep
        match infoOpt with
        | none => some (.ok (acc1, last, c1))
        | some info =>
          match info.page with
          | none => some (.error .typeError)
          | some q =>
            permLoop reg cfg mname keep auth token kwargs fuel c1 (some (q + 1)) info.page_size acc1 info
    else some (.ok (acc, last, c))

/-- `Paginator.paginate_permission_filtered_request` (lines 92-137): run
the loop from an empty accumulator and a default-constructed
`PaginationInfo`, starting at the caller's page and page size. -/
def paginatePermFiltered (fuel : Nat) (reg : Registry) (cfg : PagConfig) (c : PagCache)
    (mname : String) (keep : Val → Bool) (auth : Option AuthInfo) (token : Option Nat)
    (page pageSize : Option Int) (kwargs : List (String × Val)) :
    Option (Except PagErr (List Val × PaginationInfo × PagCache)) :=
  permLoop reg cfg mname keep auth token kwargs fuel c page pageSize [] ⟨none, none, none⟩

/-- The fetch functions' external contract (spec section 6): a registered
method applies `offset`/`limit` as a stable, order-preserving slice of its
finite underlying source. -/
def pyFetch (src : List Val) (off lim : Option Int) : List Val :=
  let l1 := match off with
    | none => src
    | some o => src.drop o.toNat
  match lim with
  | none => l1
  | some l => l1.take l.toNat

/-- The cache component of a successful `paginate_request` outcome. -/
def outCache : Except PagErr (List Val × Option PaginationInfo × PagCache) → Option PagCache
  | .ok (_, _, c) => some c
  | .error _ => none

/-- The `PaginationInfo` component of a successful `paginate_request` outcome. -/
def outInfo : Except PagErr (List Val × Option PaginationInfo × PagCache) → Option PaginationInfo
  | .ok (_, i, _) => i
  | .error _ => none

/-! Concrete instances shared by the witnesses. -/

/-- A five-item source sequence. -/
def src5 : List Val :=
  [Val.vint 0, Val.vint 1, Val.vint 2, Val.vint 3, Val.vint 4]

/-- The schema of a registered method taking only the mandatory nullable
`offset` and `limit` parameters. -/
def fields0 : List SchemaField :=
  [⟨"offset", some Val.vnull⟩, ⟨"limit", some Val.vnull⟩]

/-- A registry holding one method backed by the five-item source. -/
def reg5 : Registry := [⟨"list_runs", fields0, pyFetch src5⟩]

/-- A configuration with default page size 20 and both limits at 1000. -/
def cfg0 : PagConfig := ⟨20, 1000, 1000⟩

/-! Small facts about the kwargs serialization errors. -/

theorem applySchema_error : ∀ (fields : List SchemaField) (kwargs : List (String × Val)) (e : PagErr),
    applySchema fields kwargs = .error e → e = PagErr.validationError := by
  intro fields
  induction fields with
  | nil => intro kwargs e h; simp [applySchema] at h
  | cons f rest ih =>
    intro kwargs e h
    unfold applySchema at h
    split at h
    · cases hr : applySchema rest kwargs with
      | error e2 =>
        rw [hr] at h
        simp only [Except.map] at h
        cases h
        exact ih _ _ hr
      | ok r => rw [hr] at h; simp [Except.map] at h
    · cases hr : applySchema rest kwargs with
      | error e2 =>
        rw [hr] at h
        simp only [Except.map] at h
        cases h
        exact ih _ _ hr
      | ok r => rw [hr] at h; simp [Except.map] at h
    · cases h; rfl

theorem serializeKwargs_error (fields : List SchemaField) (kwargs : List (String × Val)) (e : PagErr)
    (h : serializeKwargs fields kwargs = .error e) :
    e = PagErr.validationError ∨ e = PagErr.valueError := by
  unfold serializeKwargs at h
  split at h
  · cases h
    exact Or.inl (applySchema_error _ _ _ (by assumption))
  · split at h
    · cases h; exact Or.inr rfl
    · split at h
      · cases h; exact Or.inr rfl
      · cases h

theorem serializeAndStore_no_denied (c : PagCache) (entry : MethodEntry) (auth : Option AuthInfo)
    (page : Option Int) (ps : Int) (kw : List (String × Val)) :
    serializeAndStore c entry auth page ps kw ≠ Except.error PagErr.accessDenied := by
  unfold serializeAndStore
  split
  · intro h
    cases h
    rcases serializeKwargs_error entry.fields kw _ (by assumption) with h1 | h1 <;> cases h1
  · simp

theorem calculateOffsetAndLimit_error (cfg : PagConfig) (a b : Option Int) (e : PagErr)
    (h : calculateOffsetAndLimit cfg a b = .error e) : e = PagErr.invalidArgument := by
  cases a with
  | none => simp [calculateOffsetAndLimit] at h
  | some p =>
    simp only [calculateOffsetAndLimit] at h
    split at h
    · cases h; rfl
    · cases h

theorem finishRequest_no_denied (cfg : PagConfig) (t : Nat) (page1 : Option Int) (ps1 : Int)
    (entry1 : MethodEntry) (c1 : PagCache) :
    finishRequest cfg t page1 ps1 entry1 c1 ≠ Except.error PagErr.accessDenied := by
  unfold finishRequest
  split
  · intro h
    cases h
    have := calculateOffsetAndLimit_error cfg page1 (some ps1) _ (by assumption)
    cases this
  · dsimp only
    split <;> simp

theorem resumeFromRecord_no_denied (reg : Registry) (c : PagCache) (auth : Option AuthInfo)
    (page : Option Int) (R : CacheRecord) (huser : R.user = none) :
    resumeFromRecord reg c auth page R ≠ Except.error PagErr.accessDenied := by
  unfold resumeFromRecord
  split
  · simp
  · split
    · simp
    · rw [huser]
      simp only [truthyUser, Bool.false_and, Bool.false_eq_true, if_false]
      exact serializeAndStore_no_denied _ _ _ _ _ _

theorem calcValid (cfg : PagConfig) (p s : Int) (hp : 1 ≤ p) (hs : 1 ≤ s) :
    calculateOffsetAndLimit cfg (some p) (some s) =
      Except.ok (some ((p - 1) * s), some (s + 1)) := by
  have hs0 : ¬ s = 0 := by omega
  have hv : ¬(p < 1 ∨ s < 1) := by omega
  simp [calculateOffsetAndLimit, hs0, hv]

/-- C3: for every valid page `p ≥ 1` and page size `s ≥ 1`, the paginator's
offset/limit computation used before invoking the underlying fetch yields
`offset = (p-1)*s` and `limit = s+1` (one extra lookahead item beyond the
page size). -/
theorem calculate_offset_and_limit_valid (cfg : PagConfig) (p s : Int)
    (hp : 1 ≤ p) (hs : 1 ≤ s) :
    calculateOffsetAndLimit cfg (some p) (some s) =
      Except.ok (some ((p - 1) * s), some (s + 1)) :=
  calcValid cfg p s hp hs

theorem calculate_offset_and_limit_valid_witness :
    calculateOffsetAndLimit cfg0 (some 3) (some 4) = Except.ok (some 8, some 5) := by
  have h := calculate_offset_and_limit_valid cfg0 3 4 (by decide) (by decide)
  simpa using h

/-- C7: with neither a page size nor a token, `paginate_request` invokes
the registered method unbounded (no offset/limit), returns all of its
items with `PaginationInfo = None`, and leaves the pagination cache
untouched. -/
theorem paginate_request_unbounded (reg : Registry) (cfg : PagConfig) (c : PagCache)
    (mname : String) (auth : Option AuthInfo) (page : Option Int)
    (kwargs : List (String × Val)) (entry : MethodEntry)
    (hm : lookupMethod reg mname = some entry) :
    paginateRequest reg cfg c mname auth none page none kwargs =
      Except.ok (entry.fetch none none, none, c) := by
  simp [paginateRequest, hm]

theorem paginate_request_unbounded_witness :
    paginateRequest reg5 cfg0 ⟨0, []⟩ "list_runs" none none none none [] =
      Except.ok (src5, none, ⟨0, []⟩) :=
  paginate_request_unbounded reg5 cfg0 ⟨0, []⟩ "list_runs" none none []
    ⟨"list_runs", fields0, pyFetch src5⟩ rfl

/-- C10: a token whose cache record has a null owning user is accepted
from every caller — authenticated or anonymous — the ownership check never
raises `AccessDeniedError` for it. -/
theorem no_owner_token_no_access_denied (reg : Registry) (cfg : PagConfig) (c : PagCache)
    (mname : String) (auth : Option AuthInfo) (t : Nat) (page pageSize : Option Int)
    (kwargs : List (String × Val)) (R : CacheRecord)
    (hfind : cacheFind c t = some R) (huser : R.user = none) :
    paginateRequest reg cfg c mname auth (some t) page pageSize kwargs ≠
      Except.error PagErr.accessDenied := by
  unfold paginateRequest
  split
  · simp
  · rename_i entry hm2
    simp only [Option.isNone_some, Bool.and_false, Bool.false_eq_true, if_false]
    split
    · simp
    · split
      · simp
      · have hcu : createOrUpdate reg c entry auth (some t) page
            (orDefaultInt cfg.default_page_size pageSize) kwargs ≠
            Except.error PagErr.accessDenied := by
          simp only [createOrUpdate]
          rw [hfind]
          exact resumeFromRecord_no_denied reg c auth page R huser
        split
        · intro h
          cases h
          exact hcu (by assumption)
        · exact finishRequest_no_denied _ _ _ _ _ _

theorem no_owner_token_no_access_denied_witness :
    paginateRequest reg5 cfg0 ⟨1, [(0, ⟨none, "list_runs", [], some 1, 3⟩)]⟩ "list_runs"
      (some ⟨some "mallory"⟩) (some 0) none none [] ≠
      Except.error PagErr.accessDenied :=
  no_owner_token_no_access_denied reg5 cfg0 ⟨1, [(0, ⟨none, "list_runs", [], some 1, 3⟩)]⟩
    "list_runs" (some ⟨some "mallory"⟩) 0 none none [] ⟨none, "list_runs", [], some 1, 3⟩
    rfl rfl

theorem pySlice_nonneg (l : List Val) (k : Int) (hk : 0 ≤ k) :
    pySlice l k = l.take k.toNat := by
  simp [pySlice, hk]

/-- One no-token `paginate_request` call with a valid page and page size
reduces to the upsert followed by `finishRequest`. -/
theorem paginate_request_noToken (reg : Registry) (cfg : PagConfig) (c : PagCache)
    (mname : String) (auth : Option AuthInfo) (kwargs K : List (String × Val))
    (entry : MethodEntry)
    (hm : lookupMethod reg mname = some entry)
    (hser : serializeKwargs entry.fields kwargs = Except.ok K)
    (p s : Int) (hp : 1 ≤ p) (hs : 1 ≤ s)
    (hpl : p ≤ cfg.page_limit) (hsl : s ≤ cfg.page_size_limit) :
    paginateRequest reg cfg c mname auth none (some p) (some s) kwargs =
      finishRequest cfg (storeRecord c (authUser auth) entry.name (some p) s K).1
        (some p) s entry (storeRecord c (authUser auth) entry.name (some p) s K).2 := by
  have hs0 : ¬ s = 0 := by omega
  have h1 : pageOverLimit cfg (some p) = false := by
    simp only [pageOverLimit, decide_eq_false_iff_not]
    omega
  have h2 : pageSizeOverLimit cfg (some s) = false := by
    simp only [pageSizeOverLimit, decide_eq_false_iff_not]
    omega
  have h3 : orDefaultInt cfg.default_page_size (some s) = s := by
    simp [orDefaultInt, hs0]
  unfold paginateRequest
  rw [hm]
  simp only [Option.isNone_some, Bool.false_and, Bool.false_eq_true, if_false, h1, h2, h3]
  simp only [createOrUpdate, serializeAndStore]
  rw [hser]

/-- The `finishRequest` outcome for a valid page and page size, by the
number of items the fetch returned. -/
theorem finishRequest_valid (cfg : PagConfig) (t : Nat) (p s : Int)
    (entry : MethodEntry) (c1 : PagCache) (hp : 1 ≤ p) (hs : 1 ≤ s) :
    finishRequest cfg t (some p) s entry c1 =
      (if (entry.fetch (some ((p - 1) * s)) (some (s + 1))).length = 0 then
        Except.ok ([], none, c1)
      else
        Except.ok ((entry.fetch (some ((p - 1) * s)) (some (s + 1))).take s.toNat,
          some ⟨some p, some s,
            if ((entry.fetch (some ((p - 1) * s)) (some (s + 1))).length : Int) < s + 1 then none
            else some t⟩,
          c1)) := by
  unfold finishRequest
  rw [calcValid cfg p s hp hs]
  dsimp only
  rw [pySlice_nonneg _ _ (by omega)]

/-- C2: a no-token paginated request with resolved page size `s ≥ 1`:
a fetch of zero items yields `([], None)` with no `PaginationInfo`
regardless of page history; a fetch of between 1 and `s` items (fewer than
the `s+1` requested) yields those items with a `PaginationInfo` whose
`page_token` is `None`; a fetch of `s+1` items drops the lookahead item
and carries the (non-null) cache token in `page_token`. -/
theorem paginate_request_end_decision (reg : Registry) (cfg : PagConfig) (c : PagCache)
    (mname : String) (auth : Option AuthInfo) (kwargs K : List (String × Val))
    (entry : MethodEntry)
    (hm : lookupMethod reg mname = some entry)
    (hser : serializeKwargs entry.fields kwargs = Except.ok K)
    (p s : Int) (hp : 1 ≤ p) (hs : 1 ≤ s)
    (hpl : p ≤ cfg.page_limit) (hsl : s ≤ cfg.page_size_limit) :
    ((entry.fetch (some ((p - 1) * s)) (some (s + 1))).length = 0 →
      paginateRequest reg cfg c mname auth none (some p) (some s) kwargs =
        Except.ok ([], none, (storeRecord c (authUser auth) entry.name (some p) s K).2)) ∧
    (1 ≤ (entry.fetch (some ((p - 1) * s)) (some (s + 1))).length →
      ((entry.fetch (some ((p - 1) * s)) (some (s + 1))).length : Int) ≤ s →
      paginateRequest reg cfg c mname auth none (some p) (some s) kwargs =
        Except.ok (entry.fetch (some ((p - 1) * s)) (some (s + 1)),
          some ⟨some p, some s, none⟩,
          (storeRecord c (authUser auth) entry.name (some p) s K).2)) ∧
    (((entry.fetch (some ((p - 1) * s)) (some (s + 1))).length : Int) = s + 1 →
      paginateRequest reg cfg c mname auth none (some p) (some s) kwargs =
        Except.ok ((entry.fetch (some ((p - 1) * s)) (some (s + 1))).take s.toNat,
          some ⟨some p, some s, some (storeRecord c (authUser auth) entry.name (some p) s K).1⟩,
          (storeRecord c (authUser auth) entry.name (some p) s K).2)) := by
  rw [paginate_request_noToken reg cfg c mname auth kwargs K entry hm hser p s hp hs hpl hsl]
  rw [finishRequest_valid cfg _ p s entry _ hp hs]
  refine ⟨?_, ?_, ?_⟩
  · intro h0
    rw [if_pos h0]
  · intro hge hle
    rw [if_neg (by omega)]
    have htok : ((entry.fetch (some ((p - 1) * s)) (some (s + 1))).length : Int) < s + 1 := by
      omega
    rw [if_pos htok]
    have htake : (entry.fetch (some ((p - 1) * s)) (some (s + 1))).take s.toNat =
        entry.fetch (some ((p - 1) * s)) (some (s + 1)) := by
      apply List.take_of_length_le
      omega
    rw [htake]
  · intro hlen
    rw [if_neg (by omega), if_neg (by omega)]

theorem paginate_request_end_decision_witness :
    paginateRequest reg5 cfg0 ⟨0, []⟩ "list_runs" none none (some 1) (some 3) [] =
      Except.ok ([Val.vint 0, Val.vint 1, Val.vint 2],
        some ⟨some 1, some 3, some 0⟩,
        ⟨1, [(0, ⟨none, "list_runs", [], some 1, 3⟩)]⟩) := by
  have h := (paginate_request_end_decision reg5 cfg0 ⟨0, []⟩ "list_runs" none [] []
    ⟨"list_runs", fields0, pyFetch src5⟩ rfl rfl 1 3 (by decide) (by decide)
    (by decide) (by decide)).2.2 (by decide)
  exact h

theorem calcInvalid (cfg : PagConfig) (p ps : Int)
    (h : p < 1 ∨ (¬ ps = 0 ∧ ps < 1)) :
    calculateOffsetAndLimit cfg (some p) (some ps) = Except.error PagErr.invalidArgument := by
  simp only [calculateOffsetAndLimit]
  rcases h with hp | ⟨hne, hlt⟩
  · rw [if_pos (Or.inl hp)]
  · rw [if_neg hne, if_pos (Or.inr hlt)]

/-- C4 counterexample: the claim "page_size < 1 fails with
InvalidArgumentError" is false — a call with `page_size = 0` succeeds:
Python falsiness silently replaces the 0 with the configured default page
size (here 20) and the request returns the first page. -/
theorem paginate_request_page_size_zero_ok :
    paginateRequest reg5 cfg0 ⟨0, []⟩ "list_runs" none none (some 1) (some 0) [] =
      Except.ok (src5, some ⟨some 1, some 20, none⟩,
        ⟨1, [(0, ⟨none, "list_runs", [], some 1, 20⟩)]⟩) := rfl

/-- C4 (amended): with no token and a supplied page size, `paginate_request`
fails with `InvalidArgumentError` when the page is below 1 or the page size
is negative.  (A page size of exactly 0 does not fail: Python falsiness
replaces it with the configured default; a sub-1 page with no page size at
all takes the no-pagination shortcut; and with a token, a page of 0 is
treated as unset rather than rejected.) -/
theorem paginate_request_invalid_args (reg : Registry) (cfg : PagConfig) (c : PagCache)
    (mname : String) (auth : Option AuthInfo) (kwargs K : List (String × Val))
    (entry : MethodEntry)
    (hm : lookupMethod reg mname = some entry)
    (hser : serializeKwargs entry.fields kwargs = Except.ok K)
    (p s0 : Int) (hpl : p ≤ cfg.page_limit) (hsl : s0 ≤ cfg.page_size_limit)
    (hbad : p < 1 ∨ (1 ≤ p ∧ s0 < 0)) :
    paginateRequest reg cfg c mname auth none (some p) (some s0) kwargs =
      Except.error PagErr.invalidArgument := by
  have h1 : pageOverLimit cfg (some p) = false := by
    simp only [pageOverLimit, decide_eq_false_iff_not]
    omega
  have h2 : pageSizeOverLimit cfg (some s0) = false := by
    simp only [pageSizeOverLimit, decide_eq_false_iff_not]
    omega
  have hside : p < 1 ∨ (¬ orDefaultInt cfg.default_page_size (some s0) = 0 ∧
      orDefaultInt cfg.default_page_size (some s0) < 1) := by
    rcases hbad with hp | ⟨hp1, hneg⟩
    · exact Or.inl hp
    · right
      have hz : orDefaultInt cfg.default_page_size (some s0) = s0 := by
        simp [orDefaultInt, show ¬ s0 = 0 by omega]
      rw [hz]
      exact ⟨by omega, by omega⟩
  unfold paginateRequest
  rw [hm]
  simp only [Option.isNone_some, Bool.false_and, Bool.false_eq_true, if_false, h1, h2]
  simp only [createOrUpdate, serializeAndStore]
  rw [hser]
  dsimp only
  unfold finishRequest
  rw [calcInvalid cfg p (orDefaultInt cfg.default_page_size (some s0)) hside]

theorem paginate_request_invalid_args_witness :
    paginateRequest reg5 cfg0 ⟨0, []⟩ "list_runs" none none (some 1) (some (-2)) [] =
      Except.error PagErr.invalidArgument :=
  paginate_request_invalid_args reg5 cfg0 ⟨0, []⟩ "list_runs" none [] []
    ⟨"list_runs", fields0, pyFetch src5⟩ rfl rfl 1 (-2) (by decide) (by decide)
    (Or.inr ⟨by decide, by decide⟩)

/-- C6 counterexample: the claim is false for a record whose owning user is
the non-null EMPTY string — `if user and ...` skips the ownership check for
falsy users, so an anonymous caller reusing the token is served the next
page instead of receiving `AccessDeniedError`. -/
theorem paginate_request_empty_owner_not_denied :
    paginateRequest reg5 cfg0 ⟨1, [(0, ⟨some "", "list_runs", [], some 1, 3⟩)]⟩
      "list_runs" none (some 0) none none [] =
      Except.ok ([Val.vint 3, Val.vint 4], some ⟨some 2, some 3, none⟩,
        ⟨2, [(0, ⟨some "", "list_runs", [], some 1, 3⟩),
             (1, ⟨none, "list_runs", [], some 2, 3⟩)]⟩) := rfl

/-- C6 (amended): a token whose cache record has a non-null and non-empty
owning user is denied to any caller whose identity is absent or different:
`paginate_request` fails with `AccessDeniedError` (before any fetch or
cache write — the error propagates directly). -/
theorem paginate_request_owner_denied (reg : Registry) (cfg : PagConfig) (c : PagCache)
    (mname : String) (auth : Option AuthInfo) (t : Nat) (page pageSize : Option Int)
    (kwargs : List (String × Val)) (R : CacheRecord) (u : String) (entry entryR : MethodEntry)
    (hm : lookupMethod reg mname = some entry)
    (h1 : pageOverLimit cfg page = false)
    (h2 : pageSizeOverLimit cfg pageSize = false)
    (hfind : cacheFind c t = some R)
    (hentry : lookupMethod reg R.function = some entryR)
    (hres : (resolvePage page R.current_page).isSome)
    (huser : R.user = some u) (hne : u ≠ "")
    (hmis : auth = none ∨ ∀ a, auth = some a → a.user_id ≠ some u) :
    paginateRequest reg cfg c mname auth (some t) page pageSize kwargs =
      Except.error PagErr.accessDenied := by
  have htru : truthyUser R.user = true := by
    rw [huser]
    simp [truthyUser, hne]
  have hmm : authMismatch auth R.user = true := by
    rw [huser]
    rcases hmis with rfl | hall
    · rfl
    · cases auth with
      | none => rfl
      | some a =>
        simp only [authMismatch, decide_eq_true_eq]
        exact hall a rfl
  unfold paginateRequest
  rw [hm]
  simp only [Option.isNone_some, Bool.and_false, Bool.false_eq_true, if_false, h1, h2]
  simp only [createOrUpdate]
  rw [hfind]
  dsimp only
  unfold resumeFromRecord
  rw [hentry]
  obtain ⟨p1, hp1⟩ := Option.isSome_iff_exists.mp hres
  rw [hp1]
  dsimp only
  rw [htru, hmm]
  simp

theorem paginate_request_owner_denied_witness :
    paginateRequest reg5 cfg0 ⟨1, [(0, ⟨some "user1", "list_runs", [], some 1, 3⟩)]⟩
      "list_runs" (some ⟨some "user2"⟩) (some 0) none none [] =
      Except.error PagErr.accessDenied :=
  paginate_request_owner_denied reg5 cfg0 ⟨1, [(0, ⟨some "user1", "list_runs", [], some 1, 3⟩)]⟩
    "list_runs" (some ⟨some "user2"⟩) 0 none none [] ⟨some "user1", "list_runs", [], some 1, 3⟩
    "user1" ⟨"list_runs", fields0, pyFetch src5⟩ ⟨"list_runs", fields0, pyFetch src5⟩
    rfl rfl rfl rfl rfl rfl rfl (by decide)
    (Or.inr (by intro a ha; cases ha; decide))

theorem lookupMethod_name : ∀ (reg : Registry) (n : String) (e : MethodEntry),
    lookupMethod reg n = some e → e.name = n := by
  intro reg
  induction reg with
  | nil => intro n e h; cases h
  | cons e0 rest ih =>
    intro n e h
    unfold lookupMethod at h
    split at h
    · cases h; assumption
    · exact ih n e h

theorem lookupTok_update : ∀ (l : List (Nat × CacheRecord)) (t : Nat) (R r : CacheRecord),
    lookupTok l t = some R → lookupTok (updateRecords l t r) t = some r := by
  intro l
  induction l with
  | nil => intro t R r h; cases h
  | cons p rest ih =>
    intro t R r h
    obtain ⟨t0, r0⟩ := p
    unfold lookupTok at h
    unfold updateRecords
    by_cases ht : t0 = t
    · rw [if_pos ht]
      unfold lookupTok
      rw [if_pos ht]
    · rw [if_neg ht] at h
      rw [if_neg ht]
      unfold lookupTok
      rw [if_neg ht]
      exact ih t R r h

theorem findByContent_update : ∀ (l : List (Nat × CacheRecord)) (u : Option String)
    (fn : String) (kw : List (String × Val)) (t : Nat) (r : CacheRecord),
    findByContent l u fn kw = some t → r.user = u → r.function = fn → r.kwargs = kw →
    findByContent (updateRecords l t r) u fn kw = some t := by
  intro l
  induction l with
  | nil => intro u fn kw t r h; cases h
  | cons p rest ih =>
    intro u fn kw t r h hu hfn hkw
    obtain ⟨t0, r0⟩ := p
    unfold findByContent at h
    by_cases hmatch : r0.user = u ∧ r0.function = fn ∧ r0.kwargs = kw
    · rw [if_pos hmatch] at h
      cases h
      unfold updateRecords
      rw [if_pos rfl]
      unfold findByContent
      rw [if_pos ⟨hu, hfn, hkw⟩]
    · rw [if_neg hmatch] at h
      unfold updateRecords
      by_cases ht : t0 = t
      · subst ht
        rw [if_pos rfl]
        unfold findByContent
        rw [if_pos ⟨hu, hfn, hkw⟩]
      · rw [if_neg ht]
        unfold findByContent
        rw [if_neg hmatch]
        exact ih u fn kw t r h hu hfn hkw

theorem ownCheckFalse (auth : Option AuthInfo) (u : Option String) (hu : authUser auth = u) :
    (truthyUser u && authMismatch auth u) = false := by
  cases auth with
  | none => cases hu; rfl
  | some a =>
    cases hu
    simp [authUser, authMismatch]

/-- The resume-from-record branch under a same-identity caller and a
well-formed record (stored kwargs already in serialized normal form, the
cache holding the record under the token derived from its content). -/
theorem resumeFromRecord_spec (reg : Registry) (c : PagCache) (auth : Option AuthInfo)
    (page : Option Int) (R : CacheRecord) (q p1 : Int) (t : Nat) (entryR : MethodEntry)
    (hentry : lookupMethod reg R.function = some entryR)
    (hq : R.current_page = some q)
    (hser : serializeKwargs entryR.fields R.kwargs = Except.ok R.kwargs)
    (hu : authUser auth = R.user)
    (hcontent : findByContent c.records R.user R.function R.kwargs = some t)
    (hp1 : resolvePage page (some q) = some p1) :
    resumeFromRecord reg c auth page R =
      Except.ok (t, some p1, R.page_size, entryR, R.kwargs,
        ⟨c.nextId, updateRecords c.records t ⟨R.user, R.function, R.kwargs, some p1, R.page_size⟩⟩) := by
  unfold resumeFromRecord
  rw [hentry, hq, hp1]
  dsimp only
  rw [ownCheckFalse auth R.user hu]
  simp only [Bool.false_eq_true, if_false]
  unfold serializeAndStore
  rw [hser]
  dsimp only
  unfold storeRecord
  rw [lookupMethod_name reg R.function entryR hentry, hu, hcontent]

theorem finishRequest_outCache (cfg : PagConfig) (t : Nat) (p s : Int)
    (entry : MethodEntry) (c1 : PagCache) (hp : 1 ≤ p) (hs : 1 ≤ s) :
    outCache (finishRequest cfg t (some p) s entry c1) = some c1 := by
  rw [finishRequest_valid cfg t p s entry c1 hp hs]
  split <;> rfl

/-- C5 counterexample: the claim "page becomes the caller-supplied page if
given" is false for a supplied page of 0 — Python falsiness treats it as
absent, so a token call with `page = 0` is served stored page + 1 = 2 (the
returned info says page 2), instead of honouring the supplied page. -/
theorem paginate_request_token_page_zero_ignored :
    paginateRequest reg5 cfg0 ⟨1, [(0, ⟨none, "list_runs", [], some 1, 3⟩)]⟩
      "list_runs" none (some 0) (some 0) none [] =
      Except.ok ([Val.vint 3, Val.vint 4], some ⟨some 2, some 3, none⟩,
        ⟨1, [(0, ⟨none, "list_runs", [], some 2, 3⟩)]⟩) := rfl

/-- C5 (amended): resuming with a token overrides the method and its
kwargs from the stored record, always takes the page size from the stored
record (the caller cannot change page size mid-sequence), and resolves the
page to the caller-supplied page when it is given and nonzero — a caller
page of 0 is falsy in Python and treated as absent — and otherwise to the
stored current page plus one; hence two successive same-token calls by the
same user with no explicit page advance the stored page by exactly one
each call. -/
theorem paginate_request_token_resume (reg : Registry) (cfg : PagConfig) (c : PagCache)
    (mname : String) (auth : Option AuthInfo) (t : Nat) (ps0 : Int)
    (kwargs : List (String × Val)) (R : CacheRecord) (q : Int)
    (entry entryR : MethodEntry)
    (hm : lookupMethod reg mname = some entry)
    (hfind : cacheFind c t = some R)
    (hentry : lookupMethod reg R.function = some entryR)
    (hq : R.current_page = some q) (hq0 : 0 ≤ q)
    (hser : serializeKwargs entryR.fields R.kwargs = Except.ok R.kwargs)
    (hu : authUser auth = R.user)
    (hcontent : findByContent c.records R.user R.function R.kwargs = some t)
    (hps : 1 ≤ R.page_size) :
    (∀ (page : Option Int) (p1 : Int), resolvePage page (some q) = some p1 →
      createOrUpdate reg c entry auth (some t) page ps0 kwargs =
        Except.ok (t, some p1, R.page_size, entryR, R.kwargs,
          ⟨c.nextId, updateRecords c.records t ⟨R.user, R.function, R.kwargs, some p1, R.page_size⟩⟩)) ∧
    resolvePage none (some q) = some (q + 1) ∧
    (∀ pp : Int, pp ≠ 0 → resolvePage (some pp) (some q) = some pp) ∧
    outCache (paginateRequest reg cfg c mname auth (some t) none none kwargs) =
      some ⟨c.nextId, updateRecords c.records t ⟨R.user, R.function, R.kwargs, some (q + 1), R.page_size⟩⟩ ∧
    cacheFind ⟨c.nextId, updateRecords c.records t ⟨R.user, R.function, R.kwargs, some (q + 1), R.page_size⟩⟩ t =
      some ⟨R.user, R.function, R.kwargs, some (q + 1), R.page_size⟩ ∧
    outCache (paginateRequest reg cfg
        ⟨c.nextId, updateRecords c.records t ⟨R.user, R.function, R.kwargs, some (q + 1), R.page_size⟩⟩
        mname auth (some t) none none kwargs) =
      some ⟨c.nextId,
        updateRecords (updateRecords c.records t ⟨R.user, R.function, R.kwargs, some (q + 1), R.page_size⟩)
          t ⟨R.user, R.function, R.kwargs, some (q + 2), R.page_size⟩⟩ := by
  have key : ∀ (cc : PagCache) (RR : CacheRecord) (qq : Int) (ps0x : Int) (page : Option Int) (p1 : Int),
      cacheFind cc t = some RR →
      RR = ⟨R.user, R.function, R.kwargs, some qq, R.page_size⟩ →
      findByContent cc.records R.user R.function R.kwargs = some t →
      resolvePage page (some qq) = some p1 →
      createOrUpdate reg cc entry auth (some t) page ps0x kwargs =
        Except.ok (t, some p1, R.page_size, entryR, R.kwargs,
          ⟨cc.nextId, updateRecords cc.records t ⟨R.user, R.function, R.kwargs, some p1, R.page_size⟩⟩) := by
    intro cc RR qq ps0x page p1 hfindc hRR hcontc hp1
    subst hRR
    simp only [createOrUpdate]
    rw [hfindc]
    dsimp only
    exact resumeFromRecord_spec reg cc auth page _ qq p1 t entryR hentry rfl hser hu hcontc hp1
  have hReta : R = ⟨R.user, R.function, R.kwargs, some q, R.page_size⟩ := by
    rw [← hq]
  have hfind1 : cacheFind
      (⟨c.nextId, updateRecords c.records t ⟨R.user, R.function, R.kwargs, some (q + 1), R.page_size⟩⟩ : PagCache) t =
      some ⟨R.user, R.function, R.kwargs, some (q + 1), R.page_size⟩ :=
    lookupTok_update c.records t R _ hfind
  have hcontent1 : findByContent
      (updateRecords c.records t ⟨R.user, R.function, R.kwargs, some (q + 1), R.page_size⟩)
      R.user R.function R.kwargs = some t :=
    findByContent_update c.records R.user R.function R.kwargs t _ hcontent rfl rfl rfl
  have hpag : ∀ (cc : PagCache) (RR : CacheRecord) (qq : Int),
      cacheFind cc t = some RR →
      RR = ⟨R.user, R.function, R.kwargs, some qq, R.page_size⟩ →
      findByContent cc.records R.user R.function R.kwargs = some t →
      0 ≤ qq →
      outCache (paginateRequest reg cfg cc mname auth (some t) none none kwargs) =
        some ⟨cc.nextId, updateRecords cc.records t ⟨R.user, R.function, R.kwargs, some (qq + 1), R.page_size⟩⟩ := by
    intro cc RR qq hfindc hRR hcontc hqq0
    unfold paginateRequest
    rw [hm]
    simp only [Option.isNone_some, Bool.and_false, Bool.false_eq_true, if_false,
      pageOverLimit, pageSizeOverLimit]
    rw [key cc RR qq (orDefaultInt cfg.default_page_size none) none (qq + 1) hfindc hRR hcontc rfl]
    dsimp only
    exact finishRequest_outCache cfg t (qq + 1) R.page_size entryR _ (by omega) hps
  refine ⟨?_, rfl, ?_, ?_, hfind1, ?_⟩
  · intro page p1 hp1
    exact key c R q ps0 page p1 hfind hReta hcontent hp1
  · intro pp hpp
    simp [resolvePage, hpp]
  · exact hpag c R q hfind hReta hcontent hq0
  · have h2 := hpag _ _ (q + 1) hfind1 rfl hcontent1 (by omega)
    rw [show q + 1 + 1 = q + 2 by omega] at h2
    exact h2

theorem paginate_request_token_resume_witness :
    outCache (paginateRequest reg5 cfg0 ⟨1, [(0, ⟨none, "list_runs", [], some 1, 3⟩)]⟩
        "list_runs" none (some 0) none none []) =
      some ⟨1, [(0, ⟨none, "list_runs", [], some 2, 3⟩)]⟩ ∧
    outCache (paginateRequest reg5 cfg0 ⟨1, [(0, ⟨none, "list_runs", [], some 2, 3⟩)]⟩
        "list_runs" none (some 0) none none []) =
      some ⟨1, [(0, ⟨none, "list_runs", [], some 3, 3⟩)]⟩ := by
  have h := paginate_request_token_resume reg5 cfg0 ⟨1, [(0, ⟨none, "list_runs", [], some 1, 3⟩)]⟩
    "list_runs" none 0 20 [] ⟨none, "list_runs", [], some 1, 3⟩ 1
    ⟨"list_runs", fields0, pyFetch src5⟩ ⟨"list_runs", fields0, pyFetch src5⟩
    rfl rfl rfl rfl (by decide) rfl rfl rfl (by decide)
  exact ⟨h.2.2.2.1, h.2.2.2.2.2⟩

theorem lookupKw_none_of_not_mem : ∀ (l : List (String × Val)) (k : String),
    k ∉ l.map Prod.fst → lookupKw l k = none := by
  intro l
  induction l with
  | nil => intro k _; rfl
  | cons kv rest ih =>
    intro k hk
    obtain ⟨k0, v0⟩ := kv
    unfold lookupKw
    rw [if_neg]
    · exact ih k (fun hm => hk (List.mem_cons_of_mem _ hm))
    · intro he
      exact hk (by simp [he])

theorem lookupKw_mem : ∀ (l : List (String × Val)) (k : String) (v : Val),
    lookupKw l k = some v → (k, v) ∈ l := by
  intro l
  induction l with
  | nil => intro k v h; cases h
  | cons kv rest ih =>
    intro k v h
    obtain ⟨k0, v0⟩ := kv
    unfold lookupKw at h
    split at h
    · cases h
      simp_all
    · exact List.mem_cons_of_mem _ (ih k v h)

theorem excludeNone_keys_subset : ∀ (l : List (String × Val)) (k : String),
    k ∈ (excludeNone l).map Prod.fst → k ∈ l.map Prod.fst := by
  intro l k h
  obtain ⟨kv, hkv, rfl⟩ := List.mem_map.mp h
  exact List.mem_map_of_mem _ (List.mem_of_mem_filter hkv)

theorem excludeNone_lookup_null : ∀ (l : List (String × Val)) (j : String),
    (l.map Prod.fst).Nodup → lookupKw l j = some Val.vnull →
    lookupKw (excludeNone l) j = none := by
  intro l
  induction l with
  | nil => intro j _ h; cases h
  | cons kv rest ih =>
    intro j hnd h
    obtain ⟨k0, v0⟩ := kv
    unfold lookupKw at h
    rw [List.map_cons, List.nodup_cons] at hnd
    by_cases hk : k0 = j
    · rw [if_pos hk] at h
      cases h
      have hrest : j ∉ (rest.map Prod.fst) := by
        rw [← hk]
        exact hnd.1
      have h1 : excludeNone ((k0, Val.vnull) :: rest) = excludeNone rest := by
        simp [excludeNone, List.filter_cons]
      rw [h1]
      exact lookupKw_none_of_not_mem _ j
        (fun hm => hrest (excludeNone_keys_subset rest j hm))
    · rw [if_neg hk] at h
      by_cases hv : v0 = Val.vnull
      · subst hv
        have h1 : excludeNone ((k0, Val.vnull) :: rest) = excludeNone rest := by
          simp [excludeNone, List.filter_cons]
        rw [h1]
        exact ih j hnd.2 h
      · have h1 : excludeNone ((k0, v0) :: rest) = (k0, v0) :: excludeNone rest := by
          simp [excludeNone, List.filter_cons, hv]
        rw [h1]
        unfold lookupKw
        rw [if_neg hk]
        exact ih j hnd.2 h

theorem excludeNone_lookup_val : ∀ (l : List (String × Val)) (j : String) (v : Val),
    v ≠ Val.vnull → lookupKw l j = some v → lookupKw (excludeNone l) j = some v := by
  intro l
  induction l with
  | nil => intro j v _ h; cases h
  | cons kv rest ih =>
    intro j v hv h
    obtain ⟨k0, v0⟩ := kv
    unfold lookupKw at h
    by_cases hk : k0 = j
    · rw [if_pos hk] at h
      cases h
      have h1 : excludeNone ((k0, v) :: rest) = (k0, v) :: excludeNone rest := by
        simp [excludeNone, List.filter_cons, hv]
      rw [h1]
      unfold lookupKw
      rw [if_pos hk]
    · rw [if_neg hk] at h
      by_cases hv0 : v0 = Val.vnull
      · subst hv0
        have h1 : excludeNone ((k0, Val.vnull) :: rest) = excludeNone rest := by
          simp [excludeNone, List.filter_cons]
        rw [h1]
        exact ih j v hv h
      · have h1 : excludeNone ((k0, v0) :: rest) = (k0, v0) :: excludeNone rest := by
          simp [excludeNone, List.filter_cons, hv0]
        rw [h1]
        unfold lookupKw
        rw [if_neg hk]
        exact ih j v hv h

theorem lookupKw_none_not_mem : ∀ (l : List (String × Val)) (j : String),
    lookupKw l j = none → j ∉ l.map Prod.fst := by
  intro l
  induction l with
  | nil => intro j _ hm; cases hm
  | cons kv rest ih =>
    intro j h hm
    obtain ⟨k0, v0⟩ := kv
    unfold lookupKw at h
    rw [List.map_cons] at hm
    by_cases hk : k0 = j
    · rw [if_pos hk] at h; cases h
    · rw [if_neg hk] at h
      rcases List.mem_cons.mp hm with he | hm2
      · exact hk he.symm
      · exact ih j h hm2

theorem excludeNone_lookup_none (l : List (String × Val)) (j : String)
    (h : lookupKw l j = none) : lookupKw (excludeNone l) j = none := by
  apply lookupKw_none_of_not_mem
  intro hm
  exact lookupKw_none_not_mem l j h (excludeNone_keys_subset l j hm)

theorem setFieldNull_spec : ∀ (l : List (String × Val)) (key : String) (l1 : List (String × Val)),
    setFieldNull l key = some l1 →
    l1.map Prod.fst = l.map Prod.fst ∧ lookupKw l1 key = some Val.vnull ∧
      ∀ j, j ≠ key → lookupKw l1 j = lookupKw l j := by
  intro l
  induction l with
  | nil => intro key l1 h; cases h
  | cons kv rest ih =>
    intro key l1 h
    obtain ⟨k0, v0⟩ := kv
    unfold setFieldNull at h
    by_cases hk : k0 = key
    · rw [if_pos hk] at h
      cases h
      subst hk
      refine ⟨rfl, ?_, ?_⟩
      · unfold lookupKw
        rw [if_pos rfl]
      · intro j hj
        unfold lookupKw
        rw [if_neg (fun he => hj he.symm), if_neg (fun he => hj he.symm)]
    · rw [if_neg hk] at h
      cases hr : setFieldNull rest key with
      | none => rw [hr] at h; cases h
      | some r1 =>
        rw [hr] at h
        simp only [Option.map] at h
        cases h
        obtain ⟨hn, hl, ho⟩ := ih key r1 hr
        refine ⟨by simp [hn], ?_, ?_⟩
        · unfold lookupKw
          rw [if_neg hk]
          exact hl
        · intro j hj
          unfold lookupKw
          by_cases hkj : k0 = j
          · rw [if_pos hkj, if_pos hkj]
          · rw [if_neg hkj, if_neg hkj]
            exact ho j hj

theorem setFieldNull_isSome : ∀ (l : List (String × Val)) (key : String),
    key ∈ l.map Prod.fst → ∃ l1, setFieldNull l key = some l1 := by
  intro l
  induction l with
  | nil => intro key hm; cases hm
  | cons kv rest ih =>
    intro key hm
    obtain ⟨k0, v0⟩ := kv
    unfold setFieldNull
    by_cases hk : k0 = key
    · rw [if_pos hk]
      exact ⟨_, rfl⟩
    · rw [if_neg hk]
      rw [List.map_cons] at hm
      rcases List.mem_cons.mp hm with he | hm2
      · exact absurd he.symm hk
      · obtain ⟨r1, hr⟩ := ih key hm2
        rw [hr]
        exact ⟨_, rfl⟩

theorem applySchema_isOk : ∀ (fields : List SchemaField) (kwargs : List (String × Val)),
    (∀ f ∈ fields, f.default.isSome ∨ (lookupKw kwargs f.name).isSome) →
    ∃ inst, applySchema fields kwargs = Except.ok inst := by
  intro fields
  induction fields with
  | nil => intro kwargs _; exact ⟨[], rfl⟩
  | cons f rest ih =>
    intro kwargs hall
    obtain ⟨inst, hinst⟩ := ih kwargs (fun g hg => hall g (List.mem_cons_of_mem _ hg))
    unfold applySchema
    cases hl : lookupKw kwargs f.name with
    | some v =>
      rw [hinst]
      exact ⟨_, rfl⟩
    | none =>
      rcases hall f (List.mem_cons_self f rest) with hd | hs
      · obtain ⟨d, hd2⟩ := Option.isSome_iff_exists.mp hd
        rw [hd2, hinst]
        exact ⟨_, rfl⟩
      · rw [hl] at hs
        cases hs

theorem applySchema_names : ∀ (fields : List SchemaField) (kwargs inst : List (String × Val)),
    applySchema fields kwargs = Except.ok inst →
    inst.map Prod.fst = fields.map SchemaField.name := by
  intro fields
  induction fields with
  | nil =>
    intro kwargs inst h
    cases h
    rfl
  | cons f rest ih =>
    intro kwargs inst h
    unfold applySchema at h
    split at h
    · cases hr : applySchema rest kwargs with
      | error e => rw [hr] at h; simp only [Except.map] at h; cases h
      | ok r =>
        rw [hr] at h
        simp only [Except.map] at h
        cases h
        simp [ih kwargs r hr]
    · cases hr : applySchema rest kwargs with
      | error e => rw [hr] at h; simp only [Except.map] at h; cases h
      | ok r =>
        rw [hr] at h
        simp only [Except.map] at h
        cases h
        simp [ih kwargs r hr]
    · cases h

theorem applySchema_supplied : ∀ (fields : List SchemaField) (kwargs inst : List (String × Val))
    (k : String) (v : Val),
    applySchema fields kwargs = Except.ok inst → lookupKw kwargs k = some v →
    k ∈ fields.map SchemaField.name → lookupKw inst k = some v := by
  intro fields
  induction fields with
  | nil =>
    intro kwargs inst k v _ _ hm
    cases hm
  | cons f rest ih =>
    intro kwargs inst k v h hkv hm
    unfold applySchema at h
    by_cases hk : f.name = k
    · subst hk
      rw [hkv] at h
      cases hr : applySchema rest kwargs with
      | error e => rw [hr] at h; simp only [Except.map] at h; cases h
      | ok r =>
        rw [hr] at h
        simp only [Except.map] at h
        cases h
        unfold lookupKw
        rw [if_pos rfl]
    · have hm2 : k ∈ rest.map SchemaField.name := by
        rw [List.map_cons] at hm
        rcases List.mem_cons.mp hm with he | hm2
        · exact absurd he.symm hk
        · exact hm2
      split at h
      · cases hr : applySchema rest kwargs with
        | error e => rw [hr] at h; simp only [Except.map] at h; cases h
        | ok r =>
          rw [hr] at h
          simp only [Except.map] at h
          cases h
          unfold lookupKw
          rw [if_neg hk]
          exact ih kwargs r k v hr hkv hm2
      · cases hr : applySchema rest kwargs with
        | error e => rw [hr] at h; simp only [Except.map] at h; cases h
        | ok r =>
          rw [hr] at h
          simp only [Except.map] at h
          cases h
          unfold lookupKw
          rw [if_neg hk]
          exact ih kwargs r k v hr hkv hm2
      · cases h

theorem eraseOL_other : ∀ (l : List (String × Val)) (j : String),
    j ≠ "offset" → j ≠ "limit" → lookupKw (eraseOffsetLimit l) j = lookupKw l j := by
  intro l
  induction l with
  | nil => intro j _ _; rfl
  | cons kv rest ih =>
    intro j ho hl
    obtain ⟨k0, v0⟩ := kv
    by_cases hc : k0 ≠ "offset" ∧ k0 ≠ "limit"
    · have h1 : eraseOffsetLimit ((k0, v0) :: rest) = (k0, v0) :: eraseOffsetLimit rest := by
        simp [eraseOffsetLimit, List.filter_cons, hc.1, hc.2]
      rw [h1]
      unfold lookupKw
      by_cases hk : k0 = j
      · rw [if_pos hk, if_pos hk]
      · rw [if_neg hk, if_neg hk]
        exact ih j ho hl
    · have hor : k0 = "offset" ∨ k0 = "limit" := by tauto
      have h1 : eraseOffsetLimit ((k0, v0) :: rest) = eraseOffsetLimit rest := by
        rcases hor with rfl | rfl <;> simp [eraseOffsetLimit, List.filter_cons]
      rw [h1]
      have hk : ¬ k0 = j := by
        rcases hor with rfl | rfl
        · exact fun he => ho he.symm
        · exact fun he => hl he.symm
      have hstep : lookupKw ((k0, v0) :: rest) j = lookupKw rest j := by
        simp only [lookupKw]
        rw [if_neg hk]
      rw [hstep]
      exact ih j ho hl

theorem eraseOL_ol (l : List (String × Val)) (j : String)
    (hj : j = "offset" ∨ j = "limit") : lookupKw (eraseOffsetLimit l) j = none := by
  apply lookupKw_none_of_not_mem
  intro hm
  obtain ⟨kv, hkv, hfst⟩ := List.mem_map.mp hm
  have hp := List.of_mem_filter hkv
  have hp2 := of_decide_eq_true hp
  rcases hj with rfl | rfl
  · exact hp2.1 hfst
  · exact hp2.2 hfst

/-- C9 counterexample: the round-trip claim is false for a registered
method with a parameter carrying a non-null default that the caller did
not supply — the serialized record stores the default explicitly, so the
deserialized kwargs contain an `x` entry the original kwargs (here empty)
never had. -/
theorem serialize_roundtrip_cx :
    serializeKwargs
        [⟨"offset", some Val.vnull⟩, ⟨"limit", some Val.vnull⟩, ⟨"x", some (Val.vint 7)⟩]
        [] = Except.ok [("x", Val.vint 7)] ∧
    lookupKw [("x", Val.vint 7)] "x" = some (Val.vint 7) ∧
    lookupKw (eraseOffsetLimit []) "x" = none :=
  ⟨rfl, rfl, rfl⟩

/-- C9 (amended): serializing the kwargs through the method's parameter
schema (stripping `offset`/`limit`, dropping nulls) and deserializing them
on token reuse yields kwargs dictionary-equal to the originals minus
`offset`/`limit`, PROVIDED every schema parameter other than
`offset`/`limit` is explicitly supplied with a non-null value and no
extra-schema keys are supplied.  (In general the stored kwargs are the
schema-normalized originals: unsupplied parameters are filled from their
defaults and null values are dropped.) -/
theorem serialize_roundtrip (fields : List SchemaField) (kwargs : List (String × Val))
    (hnd : (fields.map SchemaField.name).Nodup)
    (hoff : "offset" ∈ fields.map SchemaField.name)
    (hlim : "limit" ∈ fields.map SchemaField.name)
    (hsup : ∀ f ∈ fields, f.name ≠ "offset" → f.name ≠ "limit" →
      ∃ v, lookupKw kwargs f.name = some v ∧ v ≠ Val.vnull)
    (hol : ∀ f ∈ fields, (f.name = "offset" ∨ f.name = "limit") →
      f.default.isSome ∨ (lookupKw kwargs f.name).isSome)
    (hkeys : ∀ kv ∈ kwargs, kv.1 ∈ fields.map SchemaField.name) :
    ∃ stored, serializeKwargs fields kwargs = Except.ok stored ∧
      ∀ k, lookupKw stored k = lookupKw (eraseOffsetLimit kwargs) k := by
  have hallres : ∀ f ∈ fields, f.default.isSome ∨ (lookupKw kwargs f.name).isSome := by
    intro f hf
    by_cases hfo : f.name = "offset" ∨ f.name = "limit"
    · exact hol f hf hfo
    · push_neg at hfo
      obtain ⟨v, hv, _⟩ := hsup f hf hfo.1 hfo.2
      right
      rw [hv]
      rfl
  obtain ⟨inst, hinst⟩ := applySchema_isOk fields kwargs hallres
  have hnames : inst.map Prod.fst = fields.map SchemaField.name :=
    applySchema_names fields kwargs inst hinst
  obtain ⟨i1, h1⟩ := setFieldNull_isSome inst "offset" (by rw [hnames]; exact hoff)
  obtain ⟨hn1, hl1, ho1⟩ := setFieldNull_spec inst "offset" i1 h1
  obtain ⟨i2, h2⟩ := setFieldNull_isSome i1 "limit" (by rw [hn1, hnames]; exact hlim)
  obtain ⟨hn2, hl2, ho2⟩ := setFieldNull_spec i1 "limit" i2 h2
  have hser : serializeKwargs fields kwargs = Except.ok (excludeNone i2) := by
    unfold serializeKwargs
    rw [hinst]
    dsimp only
    rw [h1]
    dsimp only
    rw [h2]
  have hndi2 : (i2.map Prod.fst).Nodup := by
    rw [hn2, hn1, hnames]
    exact hnd
  refine ⟨excludeNone i2, hser, ?_⟩
  intro k
  by_cases hko : k = "offset"
  · subst hko
    rw [eraseOL_ol kwargs "offset" (Or.inl rfl)]
    apply excludeNone_lookup_null i2 "offset" hndi2
    rw [ho2 "offset" (by decide)]
    exact hl1
  · by_cases hkl : k = "limit"
    · subst hkl
      rw [eraseOL_ol kwargs "limit" (Or.inr rfl)]
      exact excludeNone_lookup_null i2 "limit" hndi2 hl2
    · rw [eraseOL_other kwargs k hko hkl]
      by_cases hmem : k ∈ fields.map SchemaField.name
      · obtain ⟨f, hf, hfk⟩ := List.mem_map.mp hmem
        obtain ⟨v, hv, hvn⟩ := hsup f hf (by rw [hfk]; exact hko) (by rw [hfk]; exact hkl)
        rw [hfk] at hv
        have hik : lookupKw inst k = some v :=
          applySchema_supplied fields kwargs inst k v hinst hv hmem
        have hi2 : lookupKw i2 k = some v := by
          rw [ho2 k hkl, ho1 k hko]
          exact hik
        rw [excludeNone_lookup_val i2 k v hvn hi2, hv]
      · have hkwnone : lookupKw kwargs k = none := by
          cases hl : lookupKw kwargs k with
          | none => rfl
          | some v =>
            exact absurd (hkeys (k, v) (lookupKw_mem kwargs k v hl)) hmem
        have hi2n : lookupKw i2 k = none := by
          rw [ho2 k hkl, ho1 k hko]
          exact lookupKw_none_of_not_mem inst k (by rw [hnames]; exact hmem)
        rw [excludeNone_lookup_none i2 k hi2n, hkwnone]

theorem serialize_roundtrip_witness :
    serializeKwargs
        [⟨"offset", some Val.vnull⟩, ⟨"limit", some Val.vnull⟩, ⟨"x", some (Val.vint 7)⟩]
        [("x", Val.vint 5)] = Except.ok [("x", Val.vint 5)] ∧
    lookupKw [("x", Val.vint 5)] "x" =
      lookupKw (eraseOffsetLimit [("x", Val.vint 5)]) "x" := by
  obtain ⟨stored, hs, hall⟩ := serialize_roundtrip
    [⟨"offset", some Val.vnull⟩, ⟨"limit", some Val.vnull⟩, ⟨"x", some (Val.vint 7)⟩]
    [("x", Val.vint 5)]
    (by decide) (by decide) (by decide)
    (by
      intro f hf hfo hfl
      simp only [List.mem_cons, List.not_mem_nil, or_false] at hf
      rcases hf with rfl | rfl | rfl
      · exact absurd rfl hfo
      · exact absurd rfl hfl
      · exact ⟨Val.vint 5, rfl, by decide⟩)
    (by
      intro f hf _
      simp only [List.mem_cons, List.not_mem_nil, or_false] at hf
      rcases hf with rfl | rfl | rfl <;> exact Or.inl rfl)
    (by
      intro kv hkv
      simp only [List.mem_cons, List.not_mem_nil, or_false] at hkv
      rw [hkv]
      decide)
  have hcomp : serializeKwargs
      [⟨"offset", some Val.vnull⟩, ⟨"limit", some Val.vnull⟩, ⟨"x", some (Val.vint 7)⟩]
      [("x", Val.vint 5)] = Except.ok [("x", Val.vint 5)] := rfl
  rw [hcomp] at hs
  cases hs
  exact ⟨hcomp, hall "x"⟩

theorem permLoop_run : ∀ (fuel : Nat) (reg : Registry) (cfg : PagConfig) (mname : String)
    (keep : Val → Bool) (auth : Option AuthInfo) (kwargs K : List (String × Val))
    (fields : List SchemaField) (src : List Val) (s q : Int) (c : PagCache)
    (acc : List Val) (last : PaginationInfo),
    lookupMethod reg mname = some ⟨mname, fields, pyFetch src⟩ →
    serializeKwargs fields kwargs = Except.ok K →
    1 ≤ s → s ≤ cfg.page_size_limit →
    1 ≤ q → q + (fuel : Int) - 1 ≤ cfg.page_limit →
    1 ≤ fuel →
    (src.length : Int) ≤ (q - 1) * s + (fuel : Int) - 1 →
    (acc.length : Int) < s →
    (∀ x ∈ acc, keep x = true) →
    ∃ res info c2,
      permLoop reg cfg mname keep auth none kwargs fuel c (some q) (some s) acc last =
        some (Except.ok (res, info, c2)) ∧
      (res.length : Int) ≤ 2 * s - 1 ∧
      (∀ x ∈ res, keep x = true) ∧
      (s ≤ (res.length : Int) ∨ res = acc ++ (src.drop ((q - 1) * s).toNat).filter keep) := by
  intro fuel
  induction fuel with
  | zero =>
    intro reg cfg mname keep auth kwargs K fields src s q c acc last _ _ _ _ _ _ hfpos _ _ _
    omega
  | succ n ih =>
    intro reg cfg mname keep auth kwargs K fields src s q c acc last hm hser hs hsl hq hql _ hfuel hacc hkeep
    have hs0 : s ≠ 0 := by omega
    have hoff0 : (0 : Int) ≤ (q - 1) * s := mul_nonneg (by omega) (by omega)
    have hofi : ((((q - 1) * s).toNat : Int)) = (q - 1) * s := Int.toNat_of_nonneg hoff0
    have hcond : loopCond (some s) acc = true := by
      simp only [loopCond]
      rw [decide_eq_true hacc]
      simp
    have hpr := (paginate_request_noToken reg cfg c mname auth kwargs K
        ⟨mname, fields, pyFetch src⟩ hm hser q s hq hs (by push_cast at hql; omega) hsl).trans
      (finishRequest_valid cfg _ q s _ _ hq hs)
    dsimp only [pyFetch] at hpr
    simp only [permLoop]
    rw [if_pos hcond, hpr]
    by_cases hF : ((src.drop ((q - 1) * s).toNat).take (s + 1).toNat).length = 0
    · rw [if_pos hF]
      dsimp only
      have hdropnil : src.drop ((q - 1) * s).toNat = [] := by
        rw [List.length_take, List.length_drop] at hF
        have hlen0 : src.length - ((q - 1) * s).toNat = 0 := by omega
        have : (src.drop ((q - 1) * s).toNat).length = 0 := by
          rw [List.length_drop]
          exact hlen0
        exact List.eq_nil_of_length_eq_zero this
      refine ⟨acc ++ List.filter keep [], last, _, rfl, ?_, ?_, ?_⟩
      · simp only [List.filter_nil, List.append_nil]
        omega
      · intro x hx
        simp only [List.filter_nil, List.append_nil] at hx
        exact hkeep x hx
      · right
        rw [hdropnil]
    · rw [if_neg hF]
      dsimp only
      set ST := storeRecord c (authUser auth) mname (some q) s K with hSTdef
      set F := (src.drop ((q - 1) * s).toNat).take (s + 1).toNat with hFdef
      set NI := F.take s.toNat with hNIdef
      set acc1 := acc ++ List.filter keep NI with hacc1def
      set TK : Option Nat := if (F.length : Int) < s + 1 then none else some ST.1 with hTKdef
      have hoffltsrc : (q - 1) * s < (src.length : Int) := by
        rw [hFdef, List.length_take, List.length_drop] at hF
        omega
      have hn1 : 1 ≤ n := by
        push_cast at hfuel
        omega
      have htt : NI = (src.drop ((q - 1) * s).toNat).take s.toNat := by
        rw [hNIdef, hFdef, List.take_take]
        congr 1
        omega
      have hNIlen : (NI.length : Int) ≤ s := by
        rw [htt, List.length_take]
        push_cast
        omega
      have hfl : ((List.filter keep NI).length : Int) ≤ (NI.length : Int) := by
        exact_mod_cast List.length_filter_le keep NI
      have hacc1len : (acc1.length : Int) = (acc.length : Int) + ((List.filter keep NI).length : Int) := by
        rw [hacc1def, List.length_append]
        push_cast
        ring
      have hkeep1 : ∀ x ∈ acc1, keep x = true := by
        intro x hx
        rw [hacc1def] at hx
        rcases List.mem_append.mp hx with h | h
        · exact hkeep x h
        · exact (List.mem_filter.mp h).2
      have hglue : NI ++ src.drop ((q + 1 - 1) * s).toNat = src.drop ((q - 1) * s).toNat := by
        have h1 : (q + 1 - 1) * s = (q - 1) * s + s := by ring
        rw [h1]
        have h2 : (((q - 1) * s + s).toNat) = ((q - 1) * s).toNat + s.toNat := by
          omega
        have h3 : src.drop (((q - 1) * s).toNat + s.toNat) =
            (src.drop ((q - 1) * s).toNat).drop s.toNat := by
          rw [List.drop_drop]
        rw [h2, htt, h3]
        exact List.take_append_drop _ _
      by_cases hfull : s ≤ (acc1.length : Int)
      · obtain ⟨m, rfl⟩ : ∃ m, n = m + 1 := ⟨n - 1, by omega⟩
        have hcond2 : loopCond (some s) acc1 = false := by
          simp only [loopCond]
          rw [decide_eq_false (show ¬ ((acc1.length : Int) < s) by omega)]
          rw [beq_eq_false_iff_ne.mpr hs0]
          rfl
        have heq2 : permLoop reg cfg mname keep auth none kwargs (m + 1) ST.2 (some (q + 1))
            (some s) acc1 ⟨some q, some s, TK⟩ =
            some (Except.ok (acc1, ⟨some q, some s, TK⟩, ST.2)) := by
          simp only [permLoop]
          rw [hcond2]
          simp
        refine ⟨acc1, ⟨some q, some s, TK⟩, ST.2, heq2, ?_, hkeep1, Or.inl hfull⟩
        omega
      · push_neg at hfull
        obtain ⟨res, info2, c2, heq, hb, hk2, hbr⟩ :=
          ih reg cfg mname keep auth kwargs K fields src s (q + 1) ST.2 acc1 ⟨some q, some s, TK⟩
            hm hser hs hsl (by omega)
            (by push_cast at hql ⊢; omega) hn1
            (by push_cast at hfuel ⊢
                have hqs : (q + 1 - 1) * s = (q - 1) * s + s := by ring
                omega)
            hfull hkeep1
        refine ⟨res, info2, c2, heq, hb, hk2, ?_⟩
        rcases hbr with hleft | hright
        · exact Or.inl hleft
        · right
          rw [hright, hacc1def, List.append_assoc, ← List.filter_append, hglue]

/-- C1: a permission-filtered paginated request with requested page size
`s ≥ 1`, starting at a valid page over a finite source: the returned item
list holds only filter-surviving items, contains at least `s` of them
unless the underlying results are exhausted first — in which case it
contains exactly the filter-surviving items from the starting page's
offset onward — and never contains more than `2*s - 1` items. -/
theorem perm_filtered_page_bounds (reg : Registry) (cfg : PagConfig) (c : PagCache)
    (mname : String) (keep : Val → Bool) (auth : Option AuthInfo)
    (kwargs K : List (String × Val)) (fields : List SchemaField) (src : List Val)
    (p s : Int)
    (hm : lookupMethod reg mname = some ⟨mname, fields, pyFetch src⟩)
    (hser : serializeKwargs fields kwargs = Except.ok K)
    (hp : 1 ≤ p) (hs : 1 ≤ s)
    (hpl : p + (src.length : Int) + 1 ≤ cfg.page_limit)
    (hsl : s ≤ cfg.page_size_limit) :
    match paginatePermFiltered (src.length + 2) reg cfg c mname keep auth none
        (some p) (some s) kwargs with
    | some (Except.ok (res, _, _)) =>
        (res.length : Int) ≤ 2 * s - 1 ∧ (∀ x ∈ res, keep x = true) ∧
        (s ≤ (res.length : Int) ∨ res = (src.drop ((p - 1) * s).toNat).filter keep)
    | _ => False := by
  obtain ⟨res, info, c2, heq, hb, hk, hbr⟩ := permLoop_run (src.length + 2) reg cfg mname keep
    auth kwargs K fields src s p c [] ⟨none, none, none⟩ hm hser hs hsl hp
    (by push_cast; omega) (by omega)
    (by
      push_cast
      have hmn : (0 : Int) ≤ (p - 1) * s := mul_nonneg (by omega) (by omega)
      omega)
    (by simp; omega)
    (by intro x hx; cases hx)
  unfold paginatePermFiltered
  rw [heq]
  refine ⟨hb, hk, ?_⟩
  simpa using hbr

theorem perm_filtered_page_bounds_witness :
    match paginatePermFiltered (src5.length + 2) reg5 cfg0 ⟨0, []⟩ "list_runs"
        (fun v => v == Val.vint 2 || v == Val.vint 4) none none
        (some 1) (some 2) [] with
    | some (Except.ok (res, _, _)) =>
        (res.length : Int) ≤ 2 * 2 - 1 ∧
        (∀ x ∈ res, (fun v => v == Val.vint 2 || v == Val.vint 4) x = true) ∧
        (2 ≤ (res.length : Int) ∨
          res = (src5.drop (((1 : Int) - 1) * 2).toNat).filter
            (fun v => v == Val.vint 2 || v == Val.vint 4))
    | _ => False :=
  perm_filtered_page_bounds reg5 cfg0 ⟨0, []⟩ "list_runs"
    (fun v => v == Val.vint 2 || v == Val.vint 4) none [] [] fields0 src5 1 2
    rfl rfl (by decide) (by decide) (by decide) (by decide)

/-- C8: the permission-filtered pagination loop terminates for every
filter function — including one rejecting every item — whenever the
underlying fetch is a slice of a finite source: a fuel budget of
`src.length + 2` iterations always suffices (the loop never runs forever). -/
theorem perm_filtered_terminates (reg : Registry) (cfg : PagConfig) (c : PagCache)
    (mname : String) (keep : Val → Bool) (auth : Option AuthInfo)
    (kwargs K : List (String × Val)) (fields : List SchemaField) (src : List Val)
    (p s : Int)
    (hm : lookupMethod reg mname = some ⟨mname, fields, pyFetch src⟩)
    (hser : serializeKwargs fields kwargs = Except.ok K)
    (hp : 1 ≤ p) (hs : 1 ≤ s)
    (hpl : p + (src.length : Int) + 1 ≤ cfg.page_limit)
    (hsl : s ≤ cfg.page_size_limit) :
    (paginatePermFiltered (src.length + 2) reg cfg c mname keep auth none
        (some p) (some s) kwargs).isSome = true := by
  obtain ⟨res, info, c2, heq, _, _, _⟩ := permLoop_run (src.length + 2) reg cfg mname keep
    auth kwargs K fields src s p c [] ⟨none, none, none⟩ hm hser hs hsl hp
    (by push_cast; omega) (by omega)
    (by
      push_cast
      have hmn : (0 : Int) ≤ (p - 1) * s := mul_nonneg (by omega) (by omega)
      omega)
    (by simp; omega)
    (by intro x hx; cases hx)
  unfold paginatePermFiltered
  rw [heq]
  rfl

theorem perm_filtered_terminates_witness :
    (paginatePermFiltered (src5.length + 2) reg5 cfg0 ⟨0, []⟩ "list_runs"
        (fun _ => false) none none (some 1) (some 3) []).isSome = true :=
  perm_filtered_terminates reg5 cfg0 ⟨0, []⟩ "list_runs" (fun _ => false) none [] []
    fields0 src5 1 3 rfl rfl (by decide) (by decide) (by decide) (by decide)
